import Mathlib

/-!
# Verification of the MassSpectral_VectorDatabase fingerprinting pipeline

Shallow embedding of the spectral fingerprinting pipeline:

* `src/tools/ingest_msp.py`    — MSP text-library extractor and ingestion orchestrator
  (`parse_msp`, `bin_peaks`, `upsert_batch`, `main`);
* `src/tools/ingest_sqlite.py` — tabular (SQLite) extractor and ingestion
  (`bin_spectrum`, `parse_json_array`, `main`);
* `src/tools/search_csv.py`    — CSV query path (`bin_spectrum`, `read_csv_pairs`, `main`).

Python floats are modelled by `ℚ` (exact arithmetic); the final L2-normalisation step
`v / sqrt(norm_sq)` divides by a square root, which is irrational in general, so the
normalised values are expressed over `ℝ` inside theorem statements while all code
definitions stay computable over `ℚ`.  Machine `int` is modelled by `ℤ`.  A Python
`dict` keyed by bin index is modelled by an insertion-ordered association list with
unique keys, which is exactly the observable behaviour of a CPython dict.
-/

namespace MassSpec

/-- Model of `accumulator[idx] = accumulator.get(idx, 0.0) + v`: update the entry for
key `k` in an insertion-ordered association list, appending `(k, v)` when `k` is absent
(a fresh dict key goes to the end of the iteration order). -/
def updateAcc : List (ℤ × ℚ) → ℤ → ℚ → List (ℤ × ℚ)
  | [], k, v => [(k, v)]
  | (k', v') :: rest, k, v =>
    if k' = k then (k', v' + v) :: rest else (k', v') :: updateAcc rest k v

/-- Model of `accumulator.get(k, 0.0)` (and of `accumulator[k]` for present keys). -/
def lookupAcc : List (ℤ × ℚ) → ℤ → ℚ
  | [], _ => 0
  | (k', v') :: rest, k => if k' = k then v' else lookupAcc rest k

/-- The keys of the accumulator dict, in insertion order (`accumulator.keys()`). -/
def accKeys (acc : List (ℤ × ℚ)) : List ℤ := acc.map Prod.fst

/-- `sum(v * v for v in values)` — the squared L2 norm before normalisation. -/
def norm_sq (values : List ℚ) : ℚ := (values.map (fun v => v * v)).sum

theorem lookupAcc_updateAcc_self (acc : List (ℤ × ℚ)) (k : ℤ) (v : ℚ) :
    lookupAcc (updateAcc acc k v) k = lookupAcc acc k + v := by
  induction acc with
  | nil => simp [updateAcc, lookupAcc]
  | cons hd tl ih =>
    obtain ⟨k', v'⟩ := hd
    by_cases hk : k' = k
    · subst hk; simp [updateAcc, lookupAcc]
    · simp [updateAcc, lookupAcc, hk, ih]

theorem lookupAcc_updateAcc_ne (acc : List (ℤ × ℚ)) (k k' : ℤ) (v : ℚ) (h : k' ≠ k) :
    lookupAcc (updateAcc acc k v) k' = lookupAcc acc k' := by
  induction acc with
  | nil => simp [updateAcc, lookupAcc, Ne.symm h]
  | cons hd tl ih =>
    obtain ⟨k₀, v₀⟩ := hd
    by_cases hk : k₀ = k
    · subst hk
      simp [updateAcc, lookupAcc, Ne.symm h]
    · simp [updateAcc, lookupAcc, hk, ih]

theorem accKeys_updateAcc (acc : List (ℤ × ℚ)) (k : ℤ) (v : ℚ) :
    accKeys (updateAcc acc k v) =
      if k ∈ accKeys acc then accKeys acc else accKeys acc ++ [k] := by
  induction acc with
  | nil => simp [updateAcc, accKeys]
  | cons hd tl ih =>
    obtain ⟨k₀, v₀⟩ := hd
    by_cases hk : k₀ = k
    · subst hk; simp [updateAcc, accKeys]
    · have hcons : accKeys ((k₀, v₀) :: tl) = k₀ :: accKeys tl := by simp [accKeys]
      have hstep : accKeys (updateAcc ((k₀, v₀) :: tl) k v) = k₀ :: accKeys (updateAcc tl k v) := by
        simp [updateAcc, accKeys, hk]
      by_cases hm : k ∈ accKeys tl
      · have hm' : k ∈ accKeys ((k₀, v₀) :: tl) := by
          rw [hcons]; exact List.mem_cons_of_mem _ hm
        rw [hstep, ih, if_pos hm, if_pos hm', hcons]
      · have hm' : k ∉ accKeys ((k₀, v₀) :: tl) := by
          rw [hcons]; intro hc
          rcases List.mem_cons.1 hc with h1 | h2
          · exact hk h1.symm
          · exact hm h2
        rw [hstep, ih, if_neg hm, if_neg hm', hcons, List.cons_append]

theorem mem_accKeys_updateAcc (acc : List (ℤ × ℚ)) (k k' : ℤ) (v : ℚ) :
    k' ∈ accKeys (updateAcc acc k v) ↔ k' ∈ accKeys acc ∨ k' = k := by
  rw [accKeys_updateAcc]
  by_cases hm : k ∈ accKeys acc
  · simp [hm]; intro h; subst h; tauto
  · simp [hm]

theorem nodup_accKeys_updateAcc (acc : List (ℤ × ℚ)) (k : ℤ) (v : ℚ)
    (h : (accKeys acc).Nodup) : (accKeys (updateAcc acc k v)).Nodup := by
  rw [accKeys_updateAcc]
  by_cases hm : k ∈ accKeys acc
  · simpa [hm] using h
  · simp only [hm, if_false]
    simpa [List.nodup_append, hm] using h

theorem updateAcc_ne_nil (acc : List (ℤ × ℚ)) (k : ℤ) (v : ℚ) :
    updateAcc acc k v ≠ [] := by
  cases acc with
  | nil => simp [updateAcc]
  | cons hd tl =>
    obtain ⟨k₀, v₀⟩ := hd
    by_cases hk : k₀ = k <;> simp [updateAcc, hk]

/-! ## `bin_peaks` — the fingerprint transform of `src/tools/ingest_msp.py` (lines 70-86)

```python
def bin_peaks(peaks, bin_size):
    accumulator = {}
    for mz, inten in peaks:
        if inten <= 0 or mz < 0:
            continue
        idx = int(math.floor(mz / bin_size))
        accumulator[idx] = accumulator.get(idx, 0.0) + float(inten)
    if not accumulator:
        return [], []
    indices = sorted(accumulator.keys())
    values = [accumulator[i] for i in indices]
    norm_sq = sum(v * v for v in values)
    if norm_sq > 0:
        norm = math.sqrt(norm_sq)
        values = [v / norm for v in values]
    return indices, values
```

Python's `sorted` is modelled by `List.insertionSort (· ≤ ·)`: both produce the unique
`≤`-sorted permutation of the key list (unique because `≤` on `ℤ` is antisymmetric).
The function below returns the indices and the PRE-normalisation values; the final
`v / sqrt(norm_sq)` step maps into the irrationals and is therefore stated over `ℝ`
in the theorems (`normalize_real` below is its pointwise form).
-/

namespace IngestMsp

/-- One iteration of the accumulation loop of `bin_peaks`. -/
def binStep (bin_size : ℚ) (acc : List (ℤ × ℚ)) (p : ℚ × ℚ) : List (ℤ × ℚ) :=
  if p.2 ≤ 0 ∨ p.1 < 0 then acc else updateAcc acc ⌊p.1 / bin_size⌋ p.2

/-- The accumulator dict built by the loop of `bin_peaks`. -/
def binAcc (peaks : List (ℚ × ℚ)) (bin_size : ℚ) : List (ℤ × ℚ) :=
  peaks.foldl (binStep bin_size) []

/-- Total intensity contributed to bin `k`: the sum of the intensities of the
surviving peaks (`¬ (inten ≤ 0 ∨ mz < 0)`) whose bin index is `k`. -/
def binContrib (peaks : List (ℚ × ℚ)) (bin_size : ℚ) (k : ℤ) : ℚ :=
  ((peaks.filter
      (fun p => decide (¬ (p.2 ≤ 0 ∨ p.1 < 0) ∧ ⌊p.1 / bin_size⌋ = k))).map Prod.snd).sum

/-- `bin_peaks`, up to (but not including) the L2 normalisation step. -/
def bin_peaks (peaks : List (ℚ × ℚ)) (bin_size : ℚ) : List ℤ × List ℚ :=
  let accumulator := binAcc peaks bin_size
  if accumulator = [] then ([], [])
  else
    let indices := List.insertionSort (· ≤ ·) (accKeys accumulator)
    let values := indices.map (lookupAcc accumulator)
    (indices, values)

theorem lookupAcc_foldl (bin_size : ℚ) (k : ℤ) :
    ∀ (peaks : List (ℚ × ℚ)) (acc : List (ℤ × ℚ)),
      lookupAcc (peaks.foldl (binStep bin_size) acc) k =
        lookupAcc acc k + binContrib peaks bin_size k := by
  intro peaks
  induction peaks with
  | nil => intro acc; simp [binContrib]
  | cons p rest ih =>
    intro acc
    rw [List.foldl_cons, ih]
    by_cases hdrop : p.2 ≤ 0 ∨ p.1 < 0
    · have hnot : ¬ (0 < p.2 ∧ 0 ≤ p.1) := by
        rcases hdrop with h | h
        · exact fun hc => absurd h (not_le.2 hc.1)
        · exact fun hc => absurd h (not_lt.2 hc.2)
      have h1 : binStep bin_size acc p = acc := by simp [binStep, hdrop]
      rw [h1]
      have h2 : binContrib (p :: rest) bin_size k = binContrib rest bin_size k := by
        simp [binContrib, List.filter_cons, hnot]
      rw [h2]
    · have hkeep : 0 < p.2 ∧ 0 ≤ p.1 := by
        constructor
        · exact not_le.1 (fun hc => hdrop (Or.inl hc))
        · exact not_lt.1 (fun hc => hdrop (Or.inr hc))
      by_cases hbin : ⌊p.1 / bin_size⌋ = k
      · have h1 : binStep bin_size acc p = updateAcc acc ⌊p.1 / bin_size⌋ p.2 := by
          simp [binStep, hdrop]
        have h2 : binContrib (p :: rest) bin_size k = p.2 + binContrib rest bin_size k := by
          simp [binContrib, List.filter_cons, hkeep, hbin]
        rw [h1, h2, hbin, lookupAcc_updateAcc_self]
        ring
      · have h1 : binStep bin_size acc p = updateAcc acc ⌊p.1 / bin_size⌋ p.2 := by
          simp [binStep, hdrop]
        have h2 : binContrib (p :: rest) bin_size k = binContrib rest bin_size k := by
          simp [binContrib, List.filter_cons, hkeep, hbin]
        rw [h1, h2, lookupAcc_updateAcc_ne _ _ _ _ (fun h => hbin h.symm)]

theorem mem_accKeys_foldl (bin_size : ℚ) (k : ℤ) :
    ∀ (peaks : List (ℚ × ℚ)) (acc : List (ℤ × ℚ)),
      k ∈ accKeys (peaks.foldl (binStep bin_size) acc) ↔
        k ∈ accKeys acc ∨ ∃ p ∈ peaks, ¬ (p.2 ≤ 0 ∨ p.1 < 0) ∧ ⌊p.1 / bin_size⌋ = k := by
  intro peaks
  induction peaks with
  | nil => intro acc; simp
  | cons p rest ih =>
    intro acc
    rw [List.foldl_cons, ih]
    by_cases hdrop : p.2 ≤ 0 ∨ p.1 < 0
    · have : binStep bin_size acc p = acc := by simp [binStep, hdrop]
      rw [this]
      simp only [List.mem_cons]
      constructor
      · rintro (h | ⟨q, hq, hk⟩)
        · exact Or.inl h
        · exact Or.inr ⟨q, Or.inr hq, hk⟩
      · rintro (h | ⟨q, hq | hq, hk⟩)
        · exact Or.inl h
        · exact absurd hdrop (hq ▸ hk.1)
        · exact Or.inr ⟨q, hq, hk⟩
    · have : binStep bin_size acc p = updateAcc acc ⌊p.1 / bin_size⌋ p.2 := by
        simp [binStep, hdrop]
      rw [this]
      simp only [mem_accKeys_updateAcc, List.mem_cons]
      constructor
      · rintro ((h | hk) | ⟨q, hq, hk⟩)
        · exact Or.inl h
        · exact Or.inr ⟨p, Or.inl rfl, hdrop, hk.symm⟩
        · exact Or.inr ⟨q, Or.inr hq, hk⟩
      · rintro (h | ⟨q, hq | hq, hk⟩)
        · exact Or.inl (Or.inl h)
        · exact Or.inl (Or.inr (hq ▸ hk.2).symm)
        · exact Or.inr ⟨q, hq, hk⟩

theorem nodup_accKeys_foldl (bin_size : ℚ) :
    ∀ (peaks : List (ℚ × ℚ)) (acc : List (ℤ × ℚ)),
      (accKeys acc).Nodup → (accKeys (peaks.foldl (binStep bin_size) acc)).Nodup := by
  intro peaks
  induction peaks with
  | nil => intro acc h; simpa using h
  | cons p rest ih =>
    intro acc h
    rw [List.foldl_cons]
    apply ih
    by_cases hdrop : p.2 ≤ 0 ∨ p.1 < 0
    · simpa [binStep, hdrop] using h
    · simpa [binStep, hdrop] using nodup_accKeys_updateAcc acc _ _ h

theorem lookupAcc_binAcc (peaks : List (ℚ × ℚ)) (bin_size : ℚ) (k : ℤ) :
    lookupAcc (binAcc peaks bin_size) k = binContrib peaks bin_size k := by
  rw [binAcc, lookupAcc_foldl]
  simp [lookupAcc]

theorem mem_accKeys_binAcc (peaks : List (ℚ × ℚ)) (bin_size : ℚ) (k : ℤ) :
    k ∈ accKeys (binAcc peaks bin_size) ↔
      ∃ p ∈ peaks, ¬ (p.2 ≤ 0 ∨ p.1 < 0) ∧ ⌊p.1 / bin_size⌋ = k := by
  rw [binAcc, mem_accKeys_foldl]
  simp [accKeys]

theorem nodup_accKeys_binAcc (peaks : List (ℚ × ℚ)) (bin_size : ℚ) :
    (accKeys (binAcc peaks bin_size)).Nodup :=
  nodup_accKeys_foldl bin_size peaks [] (by simp [accKeys])

theorem accKeys_eq_nil_iff (acc : List (ℤ × ℚ)) : accKeys acc = [] ↔ acc = [] := by
  simp [accKeys]

theorem binAcc_eq_nil_of_all_dropped (peaks : List (ℚ × ℚ)) (bin_size : ℚ)
    (h : ∀ p ∈ peaks, p.2 ≤ 0 ∨ p.1 < 0) : binAcc peaks bin_size = [] := by
  rw [binAcc]
  induction peaks with
  | nil => simp
  | cons p rest ih =>
    rw [List.foldl_cons]
    have hstep : binStep bin_size [] p = [] := by
      simp [binStep, h p (List.mem_cons_self p rest)]
    rw [hstep]
    exact ih (fun q hq => h q (List.mem_cons_of_mem p hq))

theorem bin_peaks_of_all_dropped (peaks : List (ℚ × ℚ)) (bin_size : ℚ)
    (h : ∀ p ∈ peaks, p.2 ≤ 0 ∨ p.1 < 0) : bin_peaks peaks bin_size = ([], []) := by
  rw [bin_peaks]
  simp [binAcc_eq_nil_of_all_dropped peaks bin_size h]

theorem binAcc_ne_nil (peaks : List (ℚ × ℚ)) (bin_size : ℚ)
    (h : ∃ p ∈ peaks, 0 < p.2 ∧ 0 ≤ p.1) : binAcc peaks bin_size ≠ [] := by
  obtain ⟨p, hp, hpos, hnn⟩ := h
  intro hnil
  have hmem : ⌊p.1 / bin_size⌋ ∈ accKeys (binAcc peaks bin_size) := by
    rw [mem_accKeys_binAcc]
    refine ⟨p, hp, ?_, rfl⟩
    rintro (hc | hc)
    · exact absurd hpos (not_lt.2 hc)
    · exact absurd hnn (not_le.2 hc)
  rw [hnil] at hmem
  simp [accKeys] at hmem

theorem bin_peaks_eq_of_ne_nil (peaks : List (ℚ × ℚ)) (bin_size : ℚ)
    (h : binAcc peaks bin_size ≠ []) :
    bin_peaks peaks bin_size =
      (List.insertionSort (· ≤ ·) (accKeys (binAcc peaks bin_size)),
       (List.insertionSort (· ≤ ·) (accKeys (binAcc peaks bin_size))).map
         (lookupAcc (binAcc peaks bin_size))) := by
  rw [bin_peaks]
  simp [h]

theorem bin_peaks_indices_sorted (peaks : List (ℚ × ℚ)) (bin_size : ℚ) :
    List.Sorted (· < ·) (bin_peaks peaks bin_size).1 := by
  by_cases h : binAcc peaks bin_size = []
  · simp [bin_peaks, h]
  · rw [bin_peaks_eq_of_ne_nil peaks bin_size h]
    have hsorted : List.Sorted (· ≤ ·)
        (List.insertionSort (· ≤ ·) (accKeys (binAcc peaks bin_size))) :=
      List.sorted_insertionSort (· ≤ ·) _
    have hnodup : (List.insertionSort (· ≤ ·) (accKeys (binAcc peaks bin_size))).Nodup :=
      (nodup_accKeys_binAcc peaks bin_size).perm
        (List.perm_insertionSort (· ≤ ·) _).symm
    exact hsorted.lt_of_le hnodup

theorem binContrib_pos (peaks : List (ℚ × ℚ)) (bin_size : ℚ) (k : ℤ)
    (h : ∃ p ∈ peaks, ¬ (p.2 ≤ 0 ∨ p.1 < 0) ∧ ⌊p.1 / bin_size⌋ = k) :
    0 < binContrib peaks bin_size k := by
  obtain ⟨p, hp, hcond⟩ := h
  apply List.sum_pos
  · intro x hx
    obtain ⟨q, hq, rfl⟩ := List.mem_map.1 hx
    have hqf := (List.mem_filter.1 hq).2
    have hqp := of_decide_eq_true hqf
    exact not_le.1 (fun hc => hqp.1 (Or.inl hc))
  · intro hnil
    have hmem : p ∈ peaks.filter
        (fun p => decide (¬ (p.2 ≤ 0 ∨ p.1 < 0) ∧ ⌊p.1 / bin_size⌋ = k)) :=
      List.mem_filter.2 ⟨hp, decide_eq_true hcond⟩
    rw [List.map_eq_nil_iff] at hnil
    rw [hnil] at hmem
    exact List.not_mem_nil p hmem

theorem bin_peaks_values_pos (peaks : List (ℚ × ℚ)) (bin_size : ℚ) :
    ∀ v ∈ (bin_peaks peaks bin_size).2, 0 < v := by
  by_cases h : binAcc peaks bin_size = []
  · simp [bin_peaks, h]
  · rw [bin_peaks_eq_of_ne_nil peaks bin_size h]
    intro v hv
    obtain ⟨k, hk, rfl⟩ := List.mem_map.1 hv
    have hkmem : k ∈ accKeys (binAcc peaks bin_size) :=
      (List.perm_insertionSort (· ≤ ·) _).subset hk
    rw [lookupAcc_binAcc]
    exact binContrib_pos peaks bin_size k ((mem_accKeys_binAcc peaks bin_size k).1 hkmem)

theorem bin_peaks_length_eq (peaks : List (ℚ × ℚ)) (bin_size : ℚ) :
    (bin_peaks peaks bin_size).2.length = (bin_peaks peaks bin_size).1.length := by
  by_cases h : binAcc peaks bin_size = []
  · simp [bin_peaks, h]
  · rw [bin_peaks_eq_of_ne_nil peaks bin_size h]
    simp

end IngestMsp

/-! ## `bin_spectrum` — the fingerprint transform of `src/tools/ingest_sqlite.py` (lines 12-35)

Identical to `bin_peaks` except that (a) it takes the mass and intensity lists
separately and raises `ValueError` when their lengths differ, and (b) its skip
condition is `if i == 0: continue` / `if m < 0: continue` — it drops only peaks with
intensity EXACTLY zero, so a peak with negative intensity survives here. -/

namespace IngestSqlite

/-- One iteration of the accumulation loop of the SQLite-path `bin_spectrum`. -/
def binStep (bin_size : ℚ) (acc : List (ℤ × ℚ)) (p : ℚ × ℚ) : List (ℤ × ℚ) :=
  if p.2 = 0 ∨ p.1 < 0 then acc else updateAcc acc ⌊p.1 / bin_size⌋ p.2

/-- The accumulator dict built by the loop over `zip(mz, inten)`. -/
def binAcc (mz inten : List ℚ) (bin_size : ℚ) : List (ℤ × ℚ) :=
  (mz.zip inten).foldl (binStep bin_size) []

/-- `bin_spectrum` of the SQLite path, up to the L2-normalisation step (which
rescales the values but never changes emptiness, indices, or lengths).
`Except.error` models the `ValueError` raised on a length mismatch. -/
def bin_spectrum (mz inten : List ℚ) (bin_size : ℚ) : Except String (List ℤ × List ℚ) :=
  if mz.length ≠ inten.length then .error "mz_list and intensity_list lengths differ"
  else
    let accumulator := binAcc mz inten bin_size
    if accumulator = [] then .ok ([], [])
    else
      let indices := List.insertionSort (· ≤ ·) (accKeys accumulator)
      let values := indices.map (lookupAcc accumulator)
      .ok (indices, values)

theorem binAcc_zip_eq_nil_of_all_dropped (mz inten : List ℚ) (bin_size : ℚ)
    (h : ∀ p ∈ mz.zip inten, p.2 = 0 ∨ p.1 < 0) : binAcc mz inten bin_size = [] := by
  rw [binAcc]
  have hgen : ∀ l : List (ℚ × ℚ), (∀ p ∈ l, p.2 = 0 ∨ p.1 < 0) →
      l.foldl (binStep bin_size) [] = [] := by
    intro l
    induction l with
    | nil => intro _; simp
    | cons p rest ih =>
      intro hl
      rw [List.foldl_cons]
      have hstep : binStep bin_size [] p = [] := by
        simp [binStep, hl p (List.mem_cons_self p rest)]
      rw [hstep]
      exact ih (fun q hq => hl q (List.mem_cons_of_mem p hq))
  exact hgen _ h

theorem bin_spectrum_of_all_dropped (mz inten : List ℚ) (bin_size : ℚ)
    (hlen : mz.length = inten.length)
    (h : ∀ p ∈ mz.zip inten, p.2 = 0 ∨ p.1 < 0) :
    bin_spectrum mz inten bin_size = .ok ([], []) := by
  rw [bin_spectrum]
  simp [hlen, binAcc_zip_eq_nil_of_all_dropped mz inten bin_size h]

end IngestSqlite

/-! ## The CSV query path — `src/tools/search_csv.py` -/

namespace SearchCsv

/-- `bin_spectrum` of the query path (lines 9-27).  After the length guard (a raised
`ValueError`, modelled as `Except.error`), its loop over `zip(mz, inten)` — skip
condition `i <= 0 or m < 0`, `floor(m / bin_size)` binning, additive accumulation,
key sort, value lookup, L2 normalisation — is line for line the body of
`bin_peaks` from `ingest_msp.py` applied to the zipped pair list, so the embedding
reuses `IngestMsp.bin_peaks` for the shared body. -/
def bin_spectrum (mz inten : List ℚ) (bin_size : ℚ) : Except String (List ℤ × List ℚ) :=
  if mz.length ≠ inten.length then .error "mz and intensity lengths differ"
  else .ok (IngestMsp.bin_peaks (mz.zip inten) bin_size)

/-- `read_csv_pairs` (lines 30-45).  A parsed CSV row is a list of cells, each cell
holding the outcome of `float(cell)`: `some q` on success, `none` when it raises
`ValueError`.  Rows with fewer than two fields, and rows whose first or second field
fails to parse, are skipped; otherwise the pair is appended to the two lists. -/
def read_csv_pairs (rows : List (List (Option ℚ))) : List ℚ × List ℚ :=
  rows.foldl
    (fun acc row =>
      if row.length < 2 then acc
      else
        match row[0]?, row[1]? with
        | some (some m), some (some i) => (acc.1 ++ [m], acc.2 ++ [i])
        | _, _ => acc)
    ([], [])

/-- The `body` dict built at line 63: `query` (the fingerprint), `limit`,
`with_payload` — constructed only on the non-empty branch. -/
structure SearchRequest where
  indices : List ℤ
  values : List ℚ
  limit : ℕ
  with_payload : Bool
deriving DecidableEq

/-- What the query path does after binning: either it reports
"Empty spectrum after binning; nothing to search." and returns without any network
interaction, or it builds and submits a search request. -/
inductive QueryOutcome
  | nothingToSearch
  | submitted (req : SearchRequest)
deriving DecidableEq

/-- The query path of `main` (lines 56-65): read the CSV, bin it, and either bail out
on an empty fingerprint (before constructing any request body) or construct and
submit the request with `with_payload = True`. -/
def search_main (rows : List (List (Option ℚ))) (bin_size : ℚ) (limit : ℕ) :
    Except String QueryOutcome :=
  let pairs := read_csv_pairs rows
  match bin_spectrum pairs.1 pairs.2 bin_size with
  | .error e => .error e
  | .ok (indices, values) =>
    if indices = [] then .ok .nothingToSearch
    else .ok (.submitted ⟨indices, values, limit, true⟩)

theorem read_csv_pairs_length_eq (rows : List (List (Option ℚ))) :
    (read_csv_pairs rows).1.length = (read_csv_pairs rows).2.length := by
  rw [read_csv_pairs]
  have hgen : ∀ (l : List (List (Option ℚ))) (acc : List ℚ × List ℚ),
      acc.1.length = acc.2.length →
      ((l.foldl
        (fun acc row =>
          if row.length < 2 then acc
          else
            match row[0]?, row[1]? with
            | some (some m), some (some i) => (acc.1 ++ [m], acc.2 ++ [i])
            | _, _ => acc)
        acc).1.length =
       (l.foldl
        (fun acc row =>
          if row.length < 2 then acc
          else
            match row[0]?, row[1]? with
            | some (some m), some (some i) => (acc.1 ++ [m], acc.2 ++ [i])
            | _, _ => acc)
        acc).2.length) := by
    intro l
    induction l with
    | nil => intro acc h; simpa using h
    | cons row rest ih =>
      intro acc h
      rw [List.foldl_cons]
      apply ih
      by_cases hlen : row.length < 2
      · simpa [hlen] using h
      · simp only [hlen, if_false]
        match h0 : row[0]?, h1 : row[1]? with
        | some (some m), some (some i) => simp [h]
        | some (some m), some none => simp [h]
        | some (some m), none => simp [h]
        | some none, _ => cases h1 <;> simp [h]
        | none, _ => cases h1 <;> simp [h]
  exact hgen rows ([], []) rfl

end SearchCsv

/-! ## The L2-normalisation step, over `ℝ` -/

theorem list_sum_map_div_real (l : List ℚ) (f : ℚ → ℝ) (c : ℝ) :
    (l.map (fun v => f v / c)).sum = (l.map f).sum / c := by
  induction l with
  | nil => simp
  | cons x xs ih => simp [ih, add_div]

theorem cast_norm_sq_eq (l : List ℚ) :
    ((norm_sq l : ℚ) : ℝ) = (l.map (fun (v : ℚ) => ((v : ℝ)) ^ 2)).sum := by
  induction l with
  | nil => simp [norm_sq]
  | cons x xs ih =>
    have h1 : norm_sq (x :: xs) = x * x + norm_sq xs := by simp [norm_sq]
    rw [h1]
    push_cast
    rw [ih]
    simp [pow_two]

theorem norm_sq_pos_of_pos (l : List ℚ) (hne : l ≠ []) (hall : ∀ v ∈ l, 0 < v) :
    0 < norm_sq l := by
  apply List.sum_pos
  · intro x hx
    obtain ⟨v, hv, rfl⟩ := List.mem_map.1 hx
    exact mul_pos (hall v hv) (hall v hv)
  · simpa [List.map_eq_nil_iff] using hne

/-- `values = [v / norm for v in values]` with `norm = sqrt(norm_sq)`: the sum of the
squares of the normalised values is exactly `norm_sq / norm_sq = 1`. -/
theorem normalized_sum_sq (l : List ℚ) (hpos : 0 < norm_sq l) :
    (l.map (fun (v : ℚ) => ((v : ℝ) / Real.sqrt (norm_sq l)) ^ 2)).sum = 1 := by
  have hR : (0 : ℝ) < ((norm_sq l : ℚ) : ℝ) := by exact_mod_cast hpos
  have hsqrt : Real.sqrt ((norm_sq l : ℚ) : ℝ) ^ 2 = ((norm_sq l : ℚ) : ℝ) :=
    Real.sq_sqrt (le_of_lt hR)
  have hterm : (l.map (fun (v : ℚ) => ((v : ℝ) / Real.sqrt (norm_sq l)) ^ 2)) =
      (l.map (fun (v : ℚ) => ((v : ℝ)) ^ 2 / ((norm_sq l : ℚ) : ℝ))) := by
    apply List.map_congr_left
    intro v _
    rw [div_pow, hsqrt]
  rw [hterm, list_sum_map_div_real, ← cast_norm_sq_eq, div_self (ne_of_gt hR)]

/-! ## Claim theorems for the fingerprint transform -/

/-- C4: for every peak list containing at least one peak with positive intensity and
non-negative mass, and every positive bin width, the transform returns a non-empty
SparseVector whose indices are strictly increasing with no duplicates, whose values
list has the same length as the indices, and whose sum of squared values — after the
`v / sqrt(norm_sq)` normalisation step, stated here over `ℝ` — equals 1.0 within
tolerance 1e-9 (in exact arithmetic the sum is exactly 1). -/
theorem C4_transform_normalized_nonempty (peaks : List (ℚ × ℚ)) (w : ℚ) (hw : 0 < w)
    (hex : ∃ p ∈ peaks, 0 < p.2 ∧ 0 ≤ p.1) :
    (IngestMsp.bin_peaks peaks w).1 ≠ [] ∧
    List.Sorted (· < ·) (IngestMsp.bin_peaks peaks w).1 ∧
    (IngestMsp.bin_peaks peaks w).2.length = (IngestMsp.bin_peaks peaks w).1.length ∧
    0 < norm_sq (IngestMsp.bin_peaks peaks w).2 ∧
    |(((IngestMsp.bin_peaks peaks w).2.map
        (fun (v : ℚ) => ((v : ℝ) / Real.sqrt (norm_sq (IngestMsp.bin_peaks peaks w).2)) ^ 2)).sum)
      - 1| ≤ 1e-9 := by
  have hacc : IngestMsp.binAcc peaks w ≠ [] := IngestMsp.binAcc_ne_nil peaks w hex
  have hkeysne : accKeys (IngestMsp.binAcc peaks w) ≠ [] :=
    fun h => hacc ((IngestMsp.accKeys_eq_nil_iff _).1 h)
  have hne : (IngestMsp.bin_peaks peaks w).1 ≠ [] := by
    rw [IngestMsp.bin_peaks_eq_of_ne_nil _ _ hacc]
    intro h
    have h' : List.insertionSort (· ≤ ·) (accKeys (IngestMsp.binAcc peaks w)) = [] := h
    have hp := (List.perm_insertionSort (· ≤ ·) (accKeys (IngestMsp.binAcc peaks w))).symm
    rw [h'] at hp
    exact hkeysne hp.eq_nil
  have hlen : (IngestMsp.bin_peaks peaks w).2.length = (IngestMsp.bin_peaks peaks w).1.length :=
    IngestMsp.bin_peaks_length_eq peaks w
  have hvalsne : (IngestMsp.bin_peaks peaks w).2 ≠ [] := by
    intro h
    apply hne
    have := hlen
    rw [h] at this
    exact List.eq_nil_of_length_eq_zero this.symm
  have hpos : 0 < norm_sq (IngestMsp.bin_peaks peaks w).2 :=
    norm_sq_pos_of_pos _ hvalsne (IngestMsp.bin_peaks_values_pos peaks w)
  refine ⟨hne, IngestMsp.bin_peaks_indices_sorted peaks w, hlen, hpos, ?_⟩
  rw [normalized_sum_sq _ hpos]
  norm_num

/-- Witness for C4 at the concrete input `peaks = [(0, 2)]`, `bin width = 1`. -/
theorem C4_transform_normalized_nonempty_witness :
    (0 : ℚ) < 1 ∧ (∃ p ∈ [((0 : ℚ), (2 : ℚ))], 0 < p.2 ∧ 0 ≤ p.1) ∧
    (IngestMsp.bin_peaks [((0 : ℚ), (2 : ℚ))] 1).1 ≠ [] :=
  ⟨by norm_num, by decide,
   (C4_transform_normalized_nonempty [((0 : ℚ), (2 : ℚ))] 1 (by norm_num) (by decide)).1⟩

/-- C6: binning is order-independent — permuting the input peak sequence yields an
identical SparseVector, both before the L2-normalisation step (indices and raw
values coincide) and after it (the normalised real values coincide). -/
theorem C6_transform_perm_invariant (peaks₁ peaks₂ : List (ℚ × ℚ)) (w : ℚ) (hw : 0 < w)
    (hperm : peaks₁.Perm peaks₂) :
    IngestMsp.bin_peaks peaks₁ w = IngestMsp.bin_peaks peaks₂ w ∧
    ((IngestMsp.bin_peaks peaks₁ w).2.map
        (fun (v : ℚ) => (v : ℝ) / Real.sqrt (norm_sq (IngestMsp.bin_peaks peaks₁ w).2))) =
      ((IngestMsp.bin_peaks peaks₂ w).2.map
        (fun (v : ℚ) => (v : ℝ) / Real.sqrt (norm_sq (IngestMsp.bin_peaks peaks₂ w).2))) := by
  have hcontrib : ∀ k, IngestMsp.binContrib peaks₁ w k = IngestMsp.binContrib peaks₂ w k :=
    fun k => List.Perm.sum_eq (List.Perm.map Prod.snd (List.Perm.filter _ hperm))
  have hlookup : lookupAcc (IngestMsp.binAcc peaks₁ w) = lookupAcc (IngestMsp.binAcc peaks₂ w) :=
    funext fun k => by
      rw [IngestMsp.lookupAcc_binAcc, IngestMsp.lookupAcc_binAcc]; exact hcontrib k
  have hmemkeys : ∀ k, k ∈ accKeys (IngestMsp.binAcc peaks₁ w) ↔
      k ∈ accKeys (IngestMsp.binAcc peaks₂ w) := by
    intro k
    rw [IngestMsp.mem_accKeys_binAcc, IngestMsp.mem_accKeys_binAcc]
    constructor
    · rintro ⟨p, hp, hc⟩; exact ⟨p, hperm.subset hp, hc⟩
    · rintro ⟨p, hp, hc⟩; exact ⟨p, hperm.symm.subset hp, hc⟩
  have hkeysperm : (accKeys (IngestMsp.binAcc peaks₁ w)).Perm
      (accKeys (IngestMsp.binAcc peaks₂ w)) :=
    (List.perm_ext_iff_of_nodup (IngestMsp.nodup_accKeys_binAcc peaks₁ w)
      (IngestMsp.nodup_accKeys_binAcc peaks₂ w)).2 hmemkeys
  have hsorteq : List.insertionSort (· ≤ ·) (accKeys (IngestMsp.binAcc peaks₁ w)) =
      List.insertionSort (· ≤ ·) (accKeys (IngestMsp.binAcc peaks₂ w)) := by
    apply List.eq_of_perm_of_sorted
      ((List.perm_insertionSort (· ≤ ·) _).trans
        (hkeysperm.trans (List.perm_insertionSort (· ≤ ·) _).symm))
      (List.sorted_insertionSort (· ≤ ·) _) (List.sorted_insertionSort (· ≤ ·) _)
  have hmain : IngestMsp.bin_peaks peaks₁ w = IngestMsp.bin_peaks peaks₂ w := by
    by_cases h1 : IngestMsp.binAcc peaks₁ w = []
    · have h2 : IngestMsp.binAcc peaks₂ w = [] := by
        rw [← IngestMsp.accKeys_eq_nil_iff]
        have := hkeysperm.symm
        rw [h1] at this
        exact this.eq_nil ▸ (by simpa [accKeys] using this.eq_nil)
      rw [IngestMsp.bin_peaks, IngestMsp.bin_peaks]
      simp [h1, h2]
    · have h2 : IngestMsp.binAcc peaks₂ w ≠ [] := by
        intro hc
        apply h1
        rw [← IngestMsp.accKeys_eq_nil_iff]
        have := hkeysperm
        rw [hc] at this
        simpa [accKeys] using this.eq_nil
      rw [IngestMsp.bin_peaks_eq_of_ne_nil _ _ h1, IngestMsp.bin_peaks_eq_of_ne_nil _ _ h2,
        hsorteq, hlookup]
  exact ⟨hmain, by rw [hmain]⟩

/-- Witness for C6 at the swap of a two-peak list, bin width 1. -/
theorem C6_transform_perm_invariant_witness :
    (0 : ℚ) < 1 ∧
    IngestMsp.bin_peaks [((0 : ℚ), (1 : ℚ)), ((2 : ℚ), (3 : ℚ))] 1 =
      IngestMsp.bin_peaks [((2 : ℚ), (3 : ℚ)), ((0 : ℚ), (1 : ℚ))] 1 :=
  ⟨by norm_num,
   (C6_transform_perm_invariant [((0 : ℚ), (1 : ℚ)), ((2 : ℚ), (3 : ℚ))]
      [((2 : ℚ), (3 : ℚ)), ((0 : ℚ), (1 : ℚ))] 1 (by norm_num)
      (List.Perm.swap _ _ _)).1⟩

/-- C5: the transform accumulates by addition (not max/replace) all surviving peaks
that map to the same bin index `floor(mz / bin_width)` — `lookupAcc` on the built
accumulator equals the SUM of the surviving intensities of that bin; in particular
peaks `(0.05, 1.0)` and `(0.09, 2.0)` at bin width `0.1` both map to bin `0`, and the
pre-normalisation accumulated intensity of bin `0` is `3.0`. -/
theorem C5_additive_accumulation :
    (∀ (peaks : List (ℚ × ℚ)) (w : ℚ) (k : ℤ),
      lookupAcc (IngestMsp.binAcc peaks w) k = IngestMsp.binContrib peaks w k) ∧
    ⌊((1 : ℚ) / 20) / ((1 : ℚ) / 10)⌋ = 0 ∧ ⌊((9 : ℚ) / 100) / ((1 : ℚ) / 10)⌋ = 0 ∧
    lookupAcc (IngestMsp.binAcc [((1 : ℚ) / 20, 1), ((9 : ℚ) / 100, 2)] ((1 : ℚ) / 10)) 0 = 3 := by
  refine ⟨IngestMsp.lookupAcc_binAcc, by norm_num, by norm_num, ?_⟩
  norm_num [IngestMsp.binAcc, IngestMsp.binStep, updateAcc, lookupAcc]

/-- C1 counterexample: in the tabular path (`bin_spectrum` of `ingest_sqlite.py`) a
peak with NEGATIVE intensity and non-negative mass is NOT skipped: for `mz = [1]`,
`intensities = [-1]` (every peak of which has non-positive intensity), the transform
returns the non-empty vector `([1], [-1])`, not the empty SparseVector claimed. -/
theorem C1_counterexample_negative_intensity_tabular :
    (∀ p ∈ ([((1 : ℚ), (-1 : ℚ))] : List (ℚ × ℚ)), p.2 ≤ 0 ∨ p.1 < 0) ∧
    IngestSqlite.bin_spectrum [(1 : ℚ)] [(-1 : ℚ)] 1 = .ok ([1], [-1]) ∧
    IngestSqlite.bin_spectrum [(1 : ℚ)] [(-1 : ℚ)] 1 ≠ .ok ([], []) := by
  have heval : IngestSqlite.bin_spectrum [(1 : ℚ)] [(-1 : ℚ)] 1 = .ok ([1], [-1]) := by
    norm_num [IngestSqlite.bin_spectrum, IngestSqlite.binAcc, IngestSqlite.binStep,
      updateAcc, accKeys, lookupAcc, List.insertionSort]
  refine ⟨?_, heval, ?_⟩
  · intro p hp
    simp only [List.mem_singleton] at hp
    subst hp
    norm_num
  · rw [heval]
    simp

/-- C1 (amended): the MSP-path `bin_peaks` and the CSV-path `bin_spectrum` skip every
peak with `intensity <= 0 or mz < 0` and return the empty SparseVector whenever every
peak is of that form; the tabular-path `bin_spectrum` of `ingest_sqlite.py` skips only
peaks with `intensity == 0` or `mz < 0`, so it is guaranteed to return the empty
SparseVector only when every peak has intensity EXACTLY zero or negative mass. -/
theorem C1_amended_filter_empty :
    (∀ (peaks : List (ℚ × ℚ)) (w : ℚ), 0 < w →
      (∀ p ∈ peaks, p.2 ≤ 0 ∨ p.1 < 0) → IngestMsp.bin_peaks peaks w = ([], [])) ∧
    (∀ (mz inten : List ℚ) (w : ℚ), 0 < w → mz.length = inten.length →
      (∀ p ∈ mz.zip inten, p.2 ≤ 0 ∨ p.1 < 0) →
      SearchCsv.bin_spectrum mz inten w = .ok ([], [])) ∧
    (∀ (mz inten : List ℚ) (w : ℚ), 0 < w → mz.length = inten.length →
      (∀ p ∈ mz.zip inten, p.2 = 0 ∨ p.1 < 0) →
      IngestSqlite.bin_spectrum mz inten w = .ok ([], [])) := by
  refine ⟨fun peaks w _ h => IngestMsp.bin_peaks_of_all_dropped peaks w h,
          fun mz inten w _ hlen h => ?_,
          fun mz inten w _ hlen h => IngestSqlite.bin_spectrum_of_all_dropped mz inten w hlen h⟩
  rw [SearchCsv.bin_spectrum, if_neg (by simp [hlen]),
    IngestMsp.bin_peaks_of_all_dropped _ w h]

/-- Witness for C1 (amended) at concrete single-peak inputs, bin width 1. -/
theorem C1_amended_filter_empty_witness :
    IngestMsp.bin_peaks [((-1 : ℚ), (1 : ℚ))] 1 = ([], []) ∧
    SearchCsv.bin_spectrum [(1 : ℚ)] [(-1 : ℚ)] 1 = .ok ([], []) ∧
    IngestSqlite.bin_spectrum [(1 : ℚ)] [(0 : ℚ)] 1 = .ok ([], []) :=
  ⟨C1_amended_filter_empty.1 _ 1 (by norm_num) (by decide),
   C1_amended_filter_empty.2.1 _ _ 1 (by norm_num) rfl (by decide),
   C1_amended_filter_empty.2.2 _ _ 1 (by norm_num) rfl (by decide)⟩

/-- C8: the query path of `search_csv.py` reports "nothing to search" — returning
before any request body is constructed, hence with no network call — exactly when the
binned query fingerprint is empty; only a non-empty fingerprint leads to a constructed
and submitted search request, carrying that fingerprint, the result limit, and
`with_payload = True`. -/
theorem C8_empty_query_not_submitted (rows : List (List (Option ℚ))) (w : ℚ) (limit : ℕ)
    (idx : List ℤ) (vals : List ℚ)
    (h : SearchCsv.bin_spectrum (SearchCsv.read_csv_pairs rows).1
          (SearchCsv.read_csv_pairs rows).2 w = .ok (idx, vals)) :
    (idx = [] → SearchCsv.search_main rows w limit = .ok .nothingToSearch) ∧
    (idx ≠ [] → SearchCsv.search_main rows w limit =
        .ok (.submitted ⟨idx, vals, limit, true⟩)) := by
  have hmain : SearchCsv.search_main rows w limit =
      if idx = [] then .ok .nothingToSearch
      else .ok (.submitted ⟨idx, vals, limit, true⟩) := by
    simp only [SearchCsv.search_main]
    rw [h]
  constructor
  · intro hnil
    rw [hmain, if_pos hnil]
  · intro hne
    rw [hmain, if_neg hne]

/-- Witness for C8: an empty CSV yields the empty fingerprint and the
"nothing to search" outcome. -/
theorem C8_empty_query_not_submitted_witness :
    SearchCsv.bin_spectrum (SearchCsv.read_csv_pairs ([] : List (List (Option ℚ)))).1
        (SearchCsv.read_csv_pairs ([] : List (List (Option ℚ)))).2 1 = .ok ([], []) ∧
    SearchCsv.search_main ([] : List (List (Option ℚ))) 1 10 = .ok .nothingToSearch :=
  ⟨rfl, (C8_empty_query_not_submitted [] 1 10 [] [] rfl).1 rfl⟩

/-! ## `parse_msp` — the MSP text-library extractor of `src/tools/ingest_msp.py` (lines 10-67)

The parser inspects each input line through exactly three lexical tests: is the
stripped line empty; does the line contain a colon (split on the first colon, both
sides stripped); do the first two whitespace tokens parse as floats.  A line is
therefore embedded as the triple of those test outcomes (`MspLine`), and the state
machine — buffer `meta`/`peaks`/`in_peaks`, blank-line flush, end-of-input flush —
is embedded faithfully over that alphabet. -/

namespace IngestMsp

/-- One input line, pre-classified by the three lexical tests `parse_msp` applies:
`isBlank` — `not line.strip()` (line 30); `colonSplit` — `some (key, value)`,
both stripped, when `":" in line` (lines 41-44), else `none`; `floatPair` —
`some (mz, inten)` when `line.split()` has two or more tokens whose first two parse
as floats (lines 54-59), else `none`. -/
structure MspLine where
  isBlank : Bool
  colonSplit : Option (String × String)
  floatPair : Option (ℚ × ℚ)
deriving DecidableEq

/-- `key.lower()`, computed over the character list of the string (equivalent to
`String.toLower`, whose byte-position recursion the kernel cannot evaluate). -/
def lowerStr (s : String) : String := String.mk (s.data.map Char.toLower)

/-- Model of `meta[key] = value` on a Python dict: overwrite in place, or append a
fresh key at the end of the iteration order. -/
def setMeta : List (String × String) → String → String → List (String × String)
  | [], k, v => [(k, v)]
  | (k', v') :: rest, k, v =>
    if k' = k then (k', v) :: rest else (k', v') :: setMeta rest k v

/-- The parser buffer: `meta`, `peaks` and the `in_peaks` flag (lines 17-19). -/
structure ParseState where
  meta : List (String × String)
  peaks : List (ℚ × ℚ)
  in_peaks : Bool
deriving DecidableEq

/-- The initial buffer: empty metadata, no peaks, metadata-reading state. -/
def initState : ParseState := ⟨[], [], false⟩

/-- An emitted record (lines 23-26): a copy of the metadata dict and the peak list. -/
structure MspRecord where
  metadata : List (String × String)
  peaks : List (ℚ × ℚ)
deriving DecidableEq

/-- `yield_current` (lines 21-26): yields the buffered record only when `peaks` is
non-empty (`if peaks:`), and nothing at all otherwise. -/
def yield_current (s : ParseState) : List MspRecord :=
  if s.peaks = [] then [] else [⟨s.meta, s.peaks⟩]

/-- One iteration of the `for raw in f` loop (lines 28-62): the new buffer state and
the records emitted during the iteration. -/
def parse_step (s : ParseState) (ln : MspLine) : ParseState × List MspRecord :=
  if ln.isBlank then
    if s.peaks ≠ [] ∨ s.meta ≠ [] then (initState, yield_current s)
    else (s, [])
  else if s.in_peaks = false then
    match ln.colonSplit with
    | some (key, value) =>
      if lowerStr key = "num peaks" then ({ s with in_peaks := true }, [])
      else ({ s with meta := setMeta s.meta key value }, [])
    | none => (s, [])
  else
    match ln.floatPair with
    | some p => ({ s with peaks := s.peaks ++ [p] }, [])
    | none => (s, [])

/-- The loop of `parse_msp` folded over the whole input. -/
def parse_fold (lines : List MspLine) : ParseState × List MspRecord :=
  lines.foldl
    (fun acc ln => ((parse_step acc.1 ln).1, acc.2 ++ (parse_step acc.1 ln).2))
    (initState, [])

/-- `parse_msp` (lines 10-67): run the loop, then flush the last spectrum
(`if peaks or meta: yield from yield_current()`, lines 64-67). -/
def parse_msp (lines : List MspLine) : List MspRecord :=
  (parse_fold lines).2 ++
    (if (parse_fold lines).1.peaks ≠ [] ∨ (parse_fold lines).1.meta ≠ [] then
      yield_current (parse_fold lines).1
    else [])

end IngestMsp

/-- C3 counterexample: a buffer holding metadata but no peaks is NOT emitted.
Feeding the line `"Name: X"` followed by a blank line — or followed by end of
input — yields no record at all, even though the buffer was non-empty (it held
metadata `{Name: X}`) when the blank line (resp. end of input) was reached. -/
theorem C3_counterexample_metadata_only_not_emitted :
    (IngestMsp.parse_fold [⟨false, some ("Name", "X"), none⟩]).1.meta = [("Name", "X")] ∧
    IngestMsp.parse_msp [⟨false, some ("Name", "X"), none⟩, ⟨true, none, none⟩] = [] ∧
    IngestMsp.parse_msp [⟨false, some ("Name", "X"), none⟩] = [] := by
  refine ⟨rfl, rfl, rfl⟩

/-- C3 (amended): on a blank line, and at end of input, the buffered record is
emitted only when the buffer holds at least one PEAK (`yield_current` yields nothing
for a peak-less buffer); a buffer holding only metadata is discarded — on a blank
line the buffer is still reset whenever it is non-empty. -/
theorem C3_amended_emit_only_with_peaks (s : IngestMsp.ParseState) (ln : IngestMsp.MspLine)
    (hblank : ln.isBlank = true) :
    ((IngestMsp.parse_step s ln).2 =
      if s.peaks = [] then [] else [⟨s.meta, s.peaks⟩]) ∧
    (s.peaks ≠ [] ∨ s.meta ≠ [] → (IngestMsp.parse_step s ln).1 = IngestMsp.initState) ∧
    (∀ lines : List IngestMsp.MspLine,
      IngestMsp.parse_msp lines =
        (IngestMsp.parse_fold lines).2 ++
          (if (IngestMsp.parse_fold lines).1.peaks = [] then []
           else [⟨(IngestMsp.parse_fold lines).1.meta,
                  (IngestMsp.parse_fold lines).1.peaks⟩])) := by
  refine ⟨?_, ?_, ?_⟩
  · by_cases hg : s.peaks ≠ [] ∨ s.meta ≠ []
    · simp [IngestMsp.parse_step, hblank, hg, IngestMsp.yield_current]
    · push_neg at hg
      simp [IngestMsp.parse_step, hblank, hg.1, hg.2, IngestMsp.yield_current]
  · intro hg
    simp [IngestMsp.parse_step, hblank, hg]
  · intro lines
    rw [IngestMsp.parse_msp]
    by_cases hp : (IngestMsp.parse_fold lines).1.peaks = []
    · by_cases hm : (IngestMsp.parse_fold lines).1.meta = []
      · simp [hp, hm, IngestMsp.yield_current]
      · simp [hp, hm, IngestMsp.yield_current]
    · simp [hp, IngestMsp.yield_current]

/-- Witness for C3 (amended): a metadata-only buffer emits nothing on a blank line;
a buffer with a peak emits its record. -/
theorem C3_amended_emit_only_with_peaks_witness :
    (IngestMsp.parse_step ⟨[("A", "B")], [], false⟩ ⟨true, none, none⟩).2 = [] ∧
    (IngestMsp.parse_step ⟨[], [((1 : ℚ), (2 : ℚ))], true⟩ ⟨true, none, none⟩).2 =
      [⟨[], [((1 : ℚ), (2 : ℚ))]⟩] := by
  constructor
  · have h := (C3_amended_emit_only_with_peaks ⟨[("A", "B")], [], false⟩
      ⟨true, none, none⟩ rfl).1
    simpa using h
  · have h := (C3_amended_emit_only_with_peaks ⟨[], [((1 : ℚ), (2 : ℚ))], true⟩
      ⟨true, none, none⟩ rfl).1
    simpa using h

/-! ## The tabular (SQLite) extraction loop — `src/tools/ingest_sqlite.py` `main` (lines 86-106) -/

namespace IngestSqlite

/-- A value read from a source-table column, as `parse_json_array` (lines 55-64)
distinguishes them: `null` is SQL NULL (Python `None`); `arr xs` is a value that is
already array-like, or a string whose JSON decode succeeds, with float list `xs`;
`malformed` is a value whose decode (or float conversion) raises. -/
inductive Cell
  | null
  | arr (xs : List ℚ)
  | malformed
deriving DecidableEq

/-- `parse_json_array` (lines 55-64): `None` yields the EMPTY LIST (not an error);
array-likes and well-formed JSON strings yield their floats; anything else raises
`ValueError` (modelled as `Except.error`). -/
def parse_json_array : Cell → Except String (List ℚ)
  | .null => .ok []
  | .arr xs => .ok xs
  | .malformed => .error "Failed to parse JSON array"

/-- One row of the source table: the id column and the two JSON-array columns. -/
structure Row where
  rid : String
  mzCell : Cell
  intenCell : Cell
deriving DecidableEq

/-- A point as constructed at lines 101-105 (`metadata` is always the empty dict;
`values` are pre-normalisation, see `bin_spectrum`). -/
structure SqlitePoint where
  id : String
  indices : List ℤ
  values : List ℚ
deriving DecidableEq

/-- The local outcome of one iteration of the row loop:
`skippedParse` — "[skip] id=... parse error: ..." then `continue` (lines 92-94);
`skippedEmpty` — "[skip] id=... empty spectrum after binning" then `continue`
(lines 97-99); `added` — a point appended to the batch (lines 101-106). -/
inductive RowOutcome
  | skippedParse
  | skippedEmpty
  | added (point : SqlitePoint)
deriving DecidableEq

/-- One iteration of the row loop (lines 88-106).  The `try/except` at lines 89-94
covers ONLY the two `parse_json_array` calls; `bin_spectrum` is called at line 96
OUTSIDE the `try`, so the `ValueError` it raises on a length mismatch propagates out
of the loop (the surrounding `try/finally` only closes the connection), modelled
as `Except.error`. -/
def process_row (bin_size : ℚ) (row : Row) : Except String RowOutcome :=
  match parse_json_array row.mzCell, parse_json_array row.intenCell with
  | .error _, _ => .ok .skippedParse
  | _, .error _ => .ok .skippedParse
  | .ok mz, .ok intensities =>
    match bin_spectrum mz intensities bin_size with
    | .error e => .error e
    | .ok (indices, values) =>
      if indices = [] then .ok .skippedEmpty
      else .ok (.added ⟨row.rid, indices, values⟩)

/-- The extraction loop over the whole row stream: the points constructed from the
surviving rows, in order — or the uncaught exception that aborted the run, in which
case no later row is processed. -/
def process_rows (bin_size : ℚ) : List Row → Except String (List SqlitePoint)
  | [] => .ok []
  | row :: rest =>
    match process_row bin_size row with
    | .error e => .error e
    | .ok (.added pt) => (process_rows bin_size rest).map (fun pts => pt :: pts)
    | .ok _ => process_rows bin_size rest

end IngestSqlite

/-- C2: evaluating the code at the failing input.  A row with mass list `[1,2]` and
intensity list `[1]` (unequal lengths) raises out of `process_row` — the per-row
`try/except` covers only the `parse_json_array` calls, not `bin_spectrum` — and the
raise aborts the whole stream: the following well-formed row, which on its own would
be extracted as a point, is never reached. -/
theorem C2_unequal_length_row_aborts_run :
    IngestSqlite.process_row 1 ⟨"bad", .arr [1, 2], .arr [1]⟩ =
      .error "mz_list and intensity_list lengths differ" ∧
    IngestSqlite.process_rows 1
        [⟨"bad", .arr [1, 2], .arr [1]⟩, ⟨"good", .arr [1], .arr [5]⟩] =
      .error "mz_list and intensity_list lengths differ" ∧
    IngestSqlite.process_rows 1 [⟨"good", .arr [1], .arr [5]⟩] =
      .ok [⟨"good", [1], [5]⟩] := by
  have hbad : IngestSqlite.process_row 1 ⟨"bad", .arr [1, 2], .arr [1]⟩ =
      .error "mz_list and intensity_list lengths differ" := by
    norm_num [IngestSqlite.process_row, IngestSqlite.parse_json_array,
      IngestSqlite.bin_spectrum]
  have hgood : IngestSqlite.process_row 1 ⟨"good", .arr [1], .arr [5]⟩ =
      .ok (.added ⟨"good", [1], [5]⟩) := by
    norm_num [IngestSqlite.process_row, IngestSqlite.parse_json_array,
      IngestSqlite.bin_spectrum, IngestSqlite.binAcc, IngestSqlite.binStep,
      updateAcc, accKeys, lookupAcc, List.insertionSort]
  refine ⟨hbad, ?_, ?_⟩
  · rw [IngestSqlite.process_rows, hbad]
  · rw [IngestSqlite.process_rows, hgood]
    rfl

/-- C9 counterexample: a row whose mass column is NULL while its intensity column is
a non-empty array is NOT "skipped with the empty-spectrum skip note": NULL decodes
to `[]`, the array lengths then differ, and the uncaught `ValueError` from
`bin_spectrum` aborts the run instead. -/
theorem C9_counterexample_single_null_aborts :
    IngestSqlite.process_row 1 ⟨"r", .null, .arr [1]⟩ =
      .error "mz_list and intensity_list lengths differ" ∧
    IngestSqlite.process_row 1 ⟨"r", .null, .arr [1]⟩ ≠
      .ok IngestSqlite.RowOutcome.skippedEmpty := by
  constructor
  · rfl
  · have heq : IngestSqlite.process_row 1 ⟨"r", .null, .arr [1]⟩ =
        .error "mz_list and intensity_list lengths differ" := rfl
    rw [heq]
    simp

/-- C9 (amended): a NULL array column is not a decode error — `parse_json_array`
maps `None` to the empty list — and a row with BOTH array columns NULL flows through
the transform, yields the empty fingerprint, and is skipped with the empty-spectrum
note rather than a parse-error report; but when exactly one column — in either
position — is NULL and the other a non-empty array, the length check inside
`bin_spectrum` raises an uncaught `ValueError` and the run aborts. -/
theorem C9_amended_null_columns (w : ℚ) (rid : String) :
    IngestSqlite.parse_json_array .null = .ok ([] : List ℚ) ∧
    IngestSqlite.process_row w ⟨rid, .null, .null⟩ = .ok .skippedEmpty ∧
    (∀ xs : List ℚ, xs ≠ [] →
      IngestSqlite.process_row w ⟨rid, .null, .arr xs⟩ =
        .error "mz_list and intensity_list lengths differ") ∧
    (∀ xs : List ℚ, xs ≠ [] →
      IngestSqlite.process_row w ⟨rid, .arr xs, .null⟩ =
        .error "mz_list and intensity_list lengths differ") := by
  refine ⟨rfl, rfl, ?_, ?_⟩
  · intro xs hxs
    have hlen : ¬ (0 = xs.length) := by
      intro h
      exact hxs (List.eq_nil_of_length_eq_zero h.symm)
    simp [IngestSqlite.process_row, IngestSqlite.parse_json_array,
      IngestSqlite.bin_spectrum, hlen]
  · intro xs hxs
    have hlen : ¬ (xs.length = 0) := by
      intro h
      exact hxs (List.eq_nil_of_length_eq_zero h)
    simp [IngestSqlite.process_row, IngestSqlite.parse_json_array,
      IngestSqlite.bin_spectrum, hlen]

/-- Witness for C9 (amended) at `w = 1`, `rid = "r"`, `xs = [1]`, in both
orientations of the single-NULL column. -/
theorem C9_amended_null_columns_witness :
    IngestSqlite.process_row 1 ⟨"r", .null, .null⟩ = .ok .skippedEmpty ∧
    IngestSqlite.process_row 1 ⟨"r", .null, .arr [1]⟩ =
      .error "mz_list and intensity_list lengths differ" ∧
    IngestSqlite.process_row 1 ⟨"r", .arr [1], .null⟩ =
      .error "mz_list and intensity_list lengths differ" :=
  ⟨(C9_amended_null_columns 1 "r").2.1,
   (C9_amended_null_columns 1 "r").2.2.1 [1] (by decide),
   (C9_amended_null_columns 1 "r").2.2.2 [1] (by decide)⟩

/-! ## The MSP ingestion orchestrator — `src/tools/ingest_msp.py` `main` (lines 89-135) -/

namespace IngestMsp

/-- `meta.get(key)`: lookup in the metadata dict. -/
def getMeta : List (String × String) → String → Option String
  | [], _ => none
  | (k', v') :: rest, k => if k' = k then some v' else getMeta rest k

/-- `meta.setdefault(key, value)`: insert only when the key is absent; an existing
entry is left untouched. -/
def setdefaultMeta (m : List (String × String)) (k v : String) : List (String × String) :=
  match getMeta m k with
  | some _ => m
  | none => m ++ [(k, v)]

/-- A point as constructed at lines 120-124 (`values` pre-normalisation, see
`bin_peaks`). -/
structure MspPoint where
  id : String
  indices : List ℤ
  values : List ℚ
  metadata : List (String × String)
deriving DecidableEq

/-- Lines 114-124 of `main`: build one point for a record whose fingerprint is
non-empty.  `pid` is the string of the freshly drawn `uuid.uuid4()`.  When
`--id-key` is set to a non-empty string (`if args.id_key and ...` — `None` and `""`
are both falsy) and the key is present in the metadata, its value is copied into the
payload under `original_id` via `setdefault`, so an existing `original_id` is never
overwritten. -/
def build_point (id_key : Option String) (pid : String) (meta : List (String × String))
    (fingerprint : List ℤ × List ℚ) : MspPoint :=
  match id_key with
  | some k =>
    if k = "" then ⟨pid, fingerprint.1, fingerprint.2, meta⟩
    else
      match getMeta meta k with
      | some orig => ⟨pid, fingerprint.1, fingerprint.2, setdefaultMeta meta "original_id" orig⟩
      | none => ⟨pid, fingerprint.1, fingerprint.2, meta⟩
  | none => ⟨pid, fingerprint.1, fingerprint.2, meta⟩

/-- `upsert_batch` (lines 89-94) succeeds iff the gateway's HTTP status for the
posted batch is `< 300`; a status `>= 300` raises `RuntimeError`.  The gateway is
modelled as the function taking the posted batch to the response status. -/
def upsert_ok (gw : List MspPoint → ℕ) (batch : List MspPoint) : Bool :=
  decide (gw batch < 300)

/-- The outcome of an ingestion run: `finished sent total` — all upserts succeeded,
the batches in `sent` were handed to the gateway in order, and `total` points were
reported ingested; `aborted sent failed` — the upsert of `failed` raised
`RuntimeError`, aborting the run with only `sent` previously upserted. -/
inductive IngestOutcome
  | finished (sent : List (List MspPoint)) (total : ℕ)
  | aborted (sent : List (List MspPoint)) (failed : List MspPoint)
deriving DecidableEq

/-- The record loop of `main` (lines 106-135) plus the final partial flush:
records with an empty fingerprint are dropped (line 112); others become points with
the `n`-th fresh uuid string `ids n` as id; the batch is flushed once it reaches
`batch_size` (lines 126-129), and the trailing partial batch is flushed after the
loop (lines 131-133); an upsert raising (status `>= 300`) aborts the run at once —
nothing is retried, nothing is skipped, no further record is consumed. -/
def ingest_loop (gw : List MspPoint → ℕ) (bin_size : ℚ) (batch_size : ℕ)
    (id_key : Option String) (ids : ℕ → String) :
    List MspRecord → ℕ → List MspPoint → List (List MspPoint) → ℕ → IngestOutcome
  | [], _, batch, sent, total =>
    if batch = [] then .finished sent total
    else if upsert_ok gw batch then .finished (sent ++ [batch]) (total + batch.length)
    else .aborted sent batch
  | spec :: rest, n, batch, sent, total =>
    if (bin_peaks spec.peaks bin_size).1 = [] then
      ingest_loop gw bin_size batch_size id_key ids rest n batch sent total
    else
      if batch_size ≤
          (batch ++ [build_point id_key (ids n) spec.metadata
            (bin_peaks spec.peaks bin_size)]).length then
        if upsert_ok gw (batch ++ [build_point id_key (ids n) spec.metadata
            (bin_peaks spec.peaks bin_size)]) then
          ingest_loop gw bin_size batch_size id_key ids rest (n + 1) []
            (sent ++ [batch ++ [build_point id_key (ids n) spec.metadata
              (bin_peaks spec.peaks bin_size)]])
            (total + (batch ++ [build_point id_key (ids n) spec.metadata
              (bin_peaks spec.peaks bin_size)]).length)
        else
          .aborted sent (batch ++ [build_point id_key (ids n) spec.metadata
            (bin_peaks spec.peaks bin_size)])
      else
        ingest_loop gw bin_size batch_size id_key ids rest (n + 1)
          (batch ++ [build_point id_key (ids n) spec.metadata
            (bin_peaks spec.peaks bin_size)])
          sent total

/-- `main` (lines 106-135): run the loop from the empty batch, no upserts yet,
fresh-uuid counter 0, zero total. -/
def ingest_main (gw : List MspPoint → ℕ) (bin_size : ℚ) (batch_size : ℕ)
    (id_key : Option String) (ids : ℕ → String) (specs : List MspRecord) : IngestOutcome :=
  ingest_loop gw bin_size batch_size id_key ids specs 0 [] [] 0

/-- The id of a built point is always the supplied fresh uuid string, whatever the
id-key configuration and metadata contents. -/
theorem build_point_id (idk : Option String) (pid : String) (meta : List (String × String))
    (fp : List ℤ × List ℚ) : (build_point idk pid meta fp).id = pid := by
  cases idk with
  | none => rfl
  | some k =>
    by_cases hk : k = ""
    · simp [build_point, hk]
    · cases hg : getMeta meta k
      · simp [build_point, hk, hg]
      · simp [build_point, hk, hg]

/-- Appending a fresh key to the metadata dict makes it visible to `getMeta`. -/
theorem getMeta_append_of_none (m : List (String × String)) (k v : String)
    (h : getMeta m k = none) : getMeta (m ++ [(k, v)]) k = some v := by
  induction m with
  | nil => simp [getMeta]
  | cons hd tl ih =>
    obtain ⟨k', v'⟩ := hd
    by_cases hk : k' = k
    · simp [getMeta, hk] at h
    · simp only [getMeta, hk, if_false] at h
      simpa [getMeta, hk] using ih h

/-- Every point in any batch produced by the ingestion loop — upserted or failing —
carries an id drawn from the uuid supply `ids`, provided the initial batch and the
initially-sent batches do. -/
theorem ingest_ids_from_supply (gw : List MspPoint → ℕ) (w : ℚ) (bs : ℕ)
    (idk : Option String) (ids : ℕ → String) :
    ∀ (specs : List MspRecord) (n : ℕ) (batch : List MspPoint)
      (sent : List (List MspPoint)) (total : ℕ),
      (∀ pt ∈ batch, ∃ m, pt.id = ids m) →
      (∀ bt ∈ sent, ∀ pt ∈ bt, ∃ m, pt.id = ids m) →
      (∀ s tot, ingest_loop gw w bs idk ids specs n batch sent total = .finished s tot →
        ∀ bt ∈ s, ∀ pt ∈ bt, ∃ m, pt.id = ids m) ∧
      (∀ s fb, ingest_loop gw w bs idk ids specs n batch sent total = .aborted s fb →
        (∀ bt ∈ s, ∀ pt ∈ bt, ∃ m, pt.id = ids m) ∧ (∀ pt ∈ fb, ∃ m, pt.id = ids m)) := by
  intro specs
  induction specs with
  | nil =>
    intro n batch sent total hbatch hsent
    constructor
    · intro s tot h
      simp only [ingest_loop] at h
      split at h
      · injection h with h1 h2
        subst h1
        exact hsent
      · split at h
        · injection h with h1 h2
          subst h1
          intro bt hbt
          rcases List.mem_append.1 hbt with hin | hin
          · exact hsent bt hin
          · rw [List.mem_singleton] at hin
            subst hin
            exact hbatch
        · exact absurd h (by simp)
    · intro s fb h
      simp only [ingest_loop] at h
      split at h
      · exact absurd h (by simp)
      · split at h
        · exact absurd h (by simp)
        · injection h with h1 h2
          subst h1
          subst h2
          exact ⟨hsent, hbatch⟩
  | cons spec rest ih =>
    intro n batch sent total hbatch hsent
    have hbatch' : ∀ pt ∈ batch ++ [build_point idk (ids n) spec.metadata
        (bin_peaks spec.peaks w)], ∃ m, pt.id = ids m := by
      intro pt hpt
      rcases List.mem_append.1 hpt with hin | hin
      · exact hbatch pt hin
      · rw [List.mem_singleton] at hin
        subst hin
        exact ⟨n, build_point_id idk (ids n) spec.metadata (bin_peaks spec.peaks w)⟩
    have hsentA : ∀ bt ∈ sent ++ [batch ++ [build_point idk (ids n) spec.metadata
        (bin_peaks spec.peaks w)]], ∀ pt ∈ bt, ∃ m, pt.id = ids m := by
      intro bt hbt
      rcases List.mem_append.1 hbt with hin | hin
      · exact hsent bt hin
      · rw [List.mem_singleton] at hin
        subst hin
        exact hbatch'
    constructor
    · intro s tot h
      simp only [ingest_loop] at h
      split at h
      · exact (ih n batch sent total hbatch hsent).1 s tot h
      · split at h
        · split at h
          · exact (ih (n + 1) [] _ _ (by simp) hsentA).1 s tot h
          · exact absurd h (by simp)
        · exact (ih (n + 1) _ sent total hbatch' hsent).1 s tot h
    · intro s fb h
      simp only [ingest_loop] at h
      split at h
      · exact (ih n batch sent total hbatch hsent).2 s fb h
      · split at h
        · split at h
          · exact (ih (n + 1) [] _ _ (by simp) hsentA).2 s fb h
          · injection h with h1 h2
            subst h1
            subst h2
            exact ⟨hsent, hbatch'⟩
        · exact (ih (n + 1) _ sent total hbatch' hsent).2 s fb h

end IngestMsp

/-- C7: an upsert failure aborts the ingestion run immediately.  Part one: in ANY
aborted run the failing batch really got a gateway status `>= 300`, and every batch
newly upserted by the run succeeded (`< 300`) — the failing batch was attempted
exactly once, never retried and never skipped.  Part two: once the flush triggered
by a record fails, the outcome is `aborted` with exactly the previously upserted
batches and the failing batch, and it is identical whatever records follow in the
stream — no further record is processed or upserted. -/
theorem C7_upsert_failure_aborts_run (gw : List IngestMsp.MspPoint → ℕ) (w : ℚ)
    (bs : ℕ) (idk : Option String) (ids : ℕ → String) :
    (∀ (specs : List IngestMsp.MspRecord) (n : ℕ) (batch : List IngestMsp.MspPoint)
        (sent : List (List IngestMsp.MspPoint)) (total : ℕ)
        (s : List (List IngestMsp.MspPoint)) (b : List IngestMsp.MspPoint),
      IngestMsp.ingest_loop gw w bs idk ids specs n batch sent total = .aborted s b →
        300 ≤ gw b ∧ (∀ c ∈ s, c ∈ sent ∨ gw c < 300)) ∧
    (∀ (spec : IngestMsp.MspRecord) (rest rest' : List IngestMsp.MspRecord) (n : ℕ)
        (batch : List IngestMsp.MspPoint) (sent : List (List IngestMsp.MspPoint))
        (total : ℕ),
      (IngestMsp.bin_peaks spec.peaks w).1 ≠ [] →
      bs ≤ batch.length + 1 →
      300 ≤ gw (batch ++ [IngestMsp.build_point idk (ids n) spec.metadata
        (IngestMsp.bin_peaks spec.peaks w)]) →
      IngestMsp.ingest_loop gw w bs idk ids (spec :: rest) n batch sent total =
          .aborted sent (batch ++ [IngestMsp.build_point idk (ids n) spec.metadata
            (IngestMsp.bin_peaks spec.peaks w)]) ∧
      IngestMsp.ingest_loop gw w bs idk ids (spec :: rest') n batch sent total =
        IngestMsp.ingest_loop gw w bs idk ids (spec :: rest) n batch sent total) := by
  constructor
  · intro specs
    induction specs with
    | nil =>
      intro n batch sent total s b h
      simp only [IngestMsp.ingest_loop] at h
      split at h
      · exact absurd h (by simp)
      · split at h
        · exact absurd h (by simp)
        · rename_i hb hup
          injection h with h1 h2
          subst h1
          subst h2
          refine ⟨?_, fun c hc => Or.inl hc⟩
          simpa [IngestMsp.upsert_ok, not_lt] using hup
    | cons spec rest ih =>
      intro n batch sent total s b h
      simp only [IngestMsp.ingest_loop] at h
      split at h
      · exact ih n batch sent total s b h
      · split at h
        · split at h
          · rename_i hfp hsize hup
            obtain ⟨h1, h2⟩ := ih _ _ _ _ _ _ h
            refine ⟨h1, fun c hc => ?_⟩
            rcases h2 c hc with hin | hlt
            · rcases List.mem_append.1 hin with hin' | hin'
              · exact Or.inl hin'
              · right
                rw [List.mem_singleton] at hin'
                subst hin'
                simpa [IngestMsp.upsert_ok] using hup
            · exact Or.inr hlt
          · rename_i hfp hsize hup
            injection h with h1 h2
            subst h1
            subst h2
            refine ⟨?_, fun c hc => Or.inl hc⟩
            simpa [IngestMsp.upsert_ok, not_lt] using hup
        · exact ih _ _ _ _ _ _ h
  · intro spec rest rest' n batch sent total hfp hsize hfail
    have hsize' : bs ≤ (batch ++ [IngestMsp.build_point idk (ids n) spec.metadata
        (IngestMsp.bin_peaks spec.peaks w)]).length := by
      simpa using hsize
    have hup : ¬ (IngestMsp.upsert_ok gw (batch ++ [IngestMsp.build_point idk (ids n)
        spec.metadata (IngestMsp.bin_peaks spec.peaks w)]) = true) := by
      simp [IngestMsp.upsert_ok, not_lt.2 hfail]
    have habort : IngestMsp.ingest_loop gw w bs idk ids (spec :: rest) n batch sent total =
        .aborted sent (batch ++ [IngestMsp.build_point idk (ids n) spec.metadata
          (IngestMsp.bin_peaks spec.peaks w)]) := by
      simp only [IngestMsp.ingest_loop]
      rw [if_neg hfp, if_pos hsize', if_neg hup]
    have habort' : IngestMsp.ingest_loop gw w bs idk ids (spec :: rest') n batch sent total =
        .aborted sent (batch ++ [IngestMsp.build_point idk (ids n) spec.metadata
          (IngestMsp.bin_peaks spec.peaks w)]) := by
      simp only [IngestMsp.ingest_loop]
      rw [if_neg hfp, if_pos hsize', if_neg hup]
    exact ⟨habort, habort'.trans habort.symm⟩

/-- Witness for C7: gateway always answering 500, batch size 1, one surviving
record followed by another — the run aborts on the first flush. -/
theorem C7_upsert_failure_aborts_run_witness :
    (IngestMsp.bin_peaks [((0 : ℚ), (1 : ℚ))] 1).1 ≠ [] ∧
    IngestMsp.ingest_loop (fun _ => 500) 1 1 none (fun _ => "uuid-0")
        [⟨[], [((0 : ℚ), (1 : ℚ))]⟩, ⟨[], [((0 : ℚ), (1 : ℚ))]⟩] 0 [] [] 0 =
      .aborted [] [IngestMsp.build_point none "uuid-0" []
        (IngestMsp.bin_peaks [((0 : ℚ), (1 : ℚ))] 1)] := by
  have hfp : (IngestMsp.bin_peaks [((0 : ℚ), (1 : ℚ))] 1).1 ≠ [] := by
    norm_num [IngestMsp.bin_peaks, IngestMsp.binAcc, IngestMsp.binStep, updateAcc,
      accKeys, List.insertionSort]
  refine ⟨hfp, ?_⟩
  have h := (C7_upsert_failure_aborts_run (fun _ => 500) 1 1 none (fun _ => "uuid-0")).2
    ⟨[], [((0 : ℚ), (1 : ℚ))]⟩ [⟨[], [((0 : ℚ), (1 : ℚ))]⟩] [] 0 [] [] 0 hfp
    (by simp) (by norm_num)
  simpa using h.1

/-- C10: every constructed Point is assigned the freshly generated uuid string as its
id — `build_point` returns the supplied `pid` in every configuration, and every point
in every batch of a completed run draws its id from the uuid supply, never from the
record's metadata.  When an id-key is configured (non-empty), present in the
metadata, and `original_id` is not already set, the value is copied to `original_id`;
an existing `original_id` is preserved unchanged. -/
theorem C10_point_ids_and_original_id (idk : Option String) (pid : String)
    (meta : List (String × String)) (fp : List ℤ × List ℚ) :
    (IngestMsp.build_point idk pid meta fp).id = pid ∧
    (∀ v, IngestMsp.getMeta meta "original_id" = some v →
      IngestMsp.getMeta (IngestMsp.build_point idk pid meta fp).metadata "original_id" =
        some v) ∧
    (∀ k orig, idk = some k → k ≠ "" → IngestMsp.getMeta meta k = some orig →
      IngestMsp.getMeta meta "original_id" = none →
      IngestMsp.getMeta (IngestMsp.build_point idk pid meta fp).metadata "original_id" =
        some orig) ∧
    (∀ (gw : List IngestMsp.MspPoint → ℕ) (w : ℚ) (bs : ℕ) (ids : ℕ → String)
        (specs : List IngestMsp.MspRecord) (s : List (List IngestMsp.MspPoint))
        (total : ℕ),
      IngestMsp.ingest_main gw w bs idk ids specs = .finished s total →
      ∀ bt ∈ s, ∀ pt ∈ bt, ∃ m, pt.id = ids m) := by
  refine ⟨IngestMsp.build_point_id idk pid meta fp, ?_, ?_, ?_⟩
  · intro v hv
    cases idk with
    | none => simpa [IngestMsp.build_point]
    | some k =>
      by_cases hk : k = ""
      · simpa [IngestMsp.build_point, hk]
      · cases hg : IngestMsp.getMeta meta k
        · simpa [IngestMsp.build_point, hk, hg]
        · simpa [IngestMsp.build_point, hk, hg, IngestMsp.setdefaultMeta, hv]
  · intro k orig hidk hk hget hnone
    subst hidk
    simp [IngestMsp.build_point, hk, hget, IngestMsp.setdefaultMeta, hnone,
      IngestMsp.getMeta_append_of_none meta "original_id" orig hnone]
  · intro gw w bs ids specs s total h
    have haux := (IngestMsp.ingest_ids_from_supply gw w bs idk ids specs 0 [] [] 0
      (by simp) (by simp)).1
    rw [IngestMsp.ingest_main] at h
    exact haux s total h

/-- Witness for C10: id-key `"ID"` present in the metadata, no `original_id` yet. -/
theorem C10_point_ids_and_original_id_witness :
    (IngestMsp.build_point (some "ID") "u" [("ID", "x9")] ([], [])).id = "u" ∧
    IngestMsp.getMeta
      (IngestMsp.build_point (some "ID") "u" [("ID", "x9")] ([], [])).metadata
      "original_id" = some "x9" :=
  ⟨(C10_point_ids_and_original_id (some "ID") "u" [("ID", "x9")] ([], [])).1,
   (C10_point_ids_and_original_id (some "ID") "u" [("ID", "x9")] ([], [])).2.2.1
     "ID" "x9" rfl (by decide) rfl rfl⟩

end MassSpec
